import Mathlib

/-!
Shallow embedding of the rufium PDF viewer core (src/input.rs and src/ui.rs):
the modal navigation input state machine, the viewer controller's handling of
navigation intents, the render scheduler's prefetch dispatch, and the page
cache insertion/eviction pass, together with theorems settling the spec's
claims about them.

Machine-integer conventions: Rust `usize` values are modelled as `Nat`.
A raw `usize` subtraction `a - b` is modelled by `usizeSub` (two's-complement
wraparound, i.e. release-build semantics; a debug build panics exactly when
`subUnderflows a b` holds).  `saturating_sub` coincides with `Nat`'s
truncated subtraction and is modelled by it directly.  A raw addition is
modelled by `usizeAdd`; at the sites where the source guards the operands we
note why the plain `Nat` operation agrees.
-/

set_option maxRecDepth 8192

namespace Rufium

/-- Bit width modulus of `usize` (64-bit targets). -/
def USIZE : Nat := 2 ^ 64

/-- Wrapping `usize` subtraction (Rust release-build `a - b`); assumes
`a, b < USIZE` as all modelled `usize` values are. -/
def usizeSub (a b : Nat) : Nat := (USIZE + a - b) % USIZE

/-- Wrapping `usize` addition (Rust release-build `a + b`). -/
def usizeAdd (a b : Nat) : Nat := (a + b) % USIZE

/-- The condition under which Rust's raw `usize` subtraction `a - b` panics in
a debug build (arithmetic underflow). -/
def subUnderflows (a b : Nat) : Prop := a < b

instance (a b : Nat) : Decidable (subUnderflows a b) := by
  unfold subUnderflows; infer_instance

/-! ### src/input.rs — the navigation state machine -/

/-- The `NavigationMode` enum from src/input.rs. -/
inductive NavigationMode where
  | Normal
  | Command
deriving DecidableEq, Repr

/-- The `NavigationAction` enum from src/input.rs. -/
inductive NavigationAction where
  | NextPage
  | PrevPage
  | FirstPage
  | LastPage
  | HalfPageDown
  | HalfPageUp
  | JumpToPage (n : Nat)
  | EnterCommandMode
  | Quit
  | None
deriving DecidableEq, Repr

/-- The key identifiers from `iced::keyboard::Key` that src/input.rs inspects:
`Key::Character(s)` carries the text of the key, the named keys are matched
individually, and every other named key falls into the catch-all arm. -/
inductive Key where
  | character (s : String)
  | arrowDown
  | arrowUp
  | enter
  | escape
  | backspace
  | otherKey
deriving DecidableEq, Repr

/-- The `KeyHandler` struct from src/input.rs: the modal state plus pending buffer. -/
structure KeyHandler where
  mode : NavigationMode
  command_buffer : String
deriving DecidableEq, Repr

/-- Constructor `KeyHandler::new`. -/
def KeyHandler.new : KeyHandler := ⟨NavigationMode.Normal, ""⟩

/-- Rust `char::is_whitespace` (the Unicode `White_Space` property), used by
`str::trim` in `parse_command`. -/
def rustIsWhitespace (c : Char) : Bool :=
  c.val = 0x09 || c.val = 0x0A || c.val = 0x0B || c.val = 0x0C || c.val = 0x0D ||
  c.val = 0x20 || c.val = 0x85 || c.val = 0xA0 || c.val = 0x1680 ||
  (0x2000 ≤ c.val && c.val ≤ 0x200A) ||
  c.val = 0x2028 || c.val = 0x2029 || c.val = 0x202F || c.val = 0x205F ||
  c.val = 0x3000

/-- Rust `str::trim`: strip leading and trailing whitespace. -/
def rustTrim (s : List Char) : List Char :=
  ((s.dropWhile rustIsWhitespace).reverse.dropWhile rustIsWhitespace).reverse

/-- Numeric value of an ASCII digit. -/
def digitVal (c : Char) : Nat := c.toNat - '0'.toNat

/-- Parse a non-empty all-ASCII-digit string to its value. -/
def parseDigits (cs : List Char) : Option Nat :=
  if cs ≠ [] ∧ cs.all Char.isDigit then
    some (cs.foldl (fun acc c => acc * 10 + digitVal c) 0)
  else
    none

/-- Rust `str::parse::<usize>`: an optional leading `+`, then one or more
ASCII digits, with the value required to fit in `usize` (overflow is an
error). -/
def parseUsize (cs : List Char) : Option Nat :=
  let body := match cs with
    | '+' :: rest => rest
    | _ => cs
  match parseDigits body with
  | some n => if n < USIZE then some n else none
  | none => none

/-- Rust `char::is_numeric`, used in the digit arm of `handle_normal_mode`.
(The full Unicode `Number` category also holds non-ASCII numerals; the keys
relevant to the spec's claims are ASCII digits, which this captures exactly.) -/
def rustIsNumeric (c : Char) : Bool := c.isDigit

/-- Function `KeyHandler::handle_normal_mode` from src/input.rs.  The Rust `match` on
`key.as_ref()` is reproduced arm by arm (the arms are mutually exclusive, so
the `if` chain below preserves first-match-wins order for `Character` keys). -/
def handle_normal_mode (h : KeyHandler) (k : Key) : NavigationAction × KeyHandler :=
  match k with
  | Key.character s =>
    if s = "j" then (NavigationAction.NextPage, h)
    else if s = "k" then (NavigationAction.PrevPage, h)
    else if s = "g" then
      if h.command_buffer = "g" then
        (NavigationAction.FirstPage, { h with command_buffer := "" })
      else
        (NavigationAction.None, { h with command_buffer := "g" })
    else if s = "G" then (NavigationAction.LastPage, h)
    else if s = "d" then (NavigationAction.HalfPageDown, h)
    else if s = "u" then (NavigationAction.HalfPageUp, h)
    else if s = "q" ∨ s = "Q" then (NavigationAction.Quit, h)
    else if s = ":" then
      (NavigationAction.EnterCommandMode,
        { mode := NavigationMode.Command, command_buffer := "" })
    else if s.toList.all rustIsNumeric then
      (NavigationAction.None, { h with command_buffer := h.command_buffer ++ s })
    else (NavigationAction.None, h)
  | Key.arrowDown => (NavigationAction.NextPage, h)
  | Key.arrowUp => (NavigationAction.PrevPage, h)
  | Key.enter =>
    if h.command_buffer ≠ "" then
      match parseUsize h.command_buffer.toList with
      | some page_num =>
        (NavigationAction.JumpToPage page_num, { h with command_buffer := "" })
      | none => (NavigationAction.None, { h with command_buffer := "" })
    else (NavigationAction.None, h)
  | Key.escape => (NavigationAction.None, { h with command_buffer := "" })
  | _ => (NavigationAction.None, h)

/-- Function `KeyHandler::parse_command` from src/input.rs (the Rust binds
`cmd = self.command_buffer.trim()` once; it is written out here). -/
def parse_command (h : KeyHandler) : NavigationAction :=
  if rustTrim h.command_buffer.toList = "q".toList ∨
      rustTrim h.command_buffer.toList = "quit".toList then
    NavigationAction.Quit
  else
    match parseUsize (rustTrim h.command_buffer.toList) with
    | some page_num => NavigationAction.JumpToPage page_num
    | none => NavigationAction.None

/-- Function `KeyHandler::handle_command_mode` from src/input.rs. -/
def handle_command_mode (h : KeyHandler) (k : Key) : NavigationAction × KeyHandler :=
  match k with
  | Key.enter =>
    (parse_command h, { mode := NavigationMode.Normal, command_buffer := "" })
  | Key.escape =>
    (NavigationAction.None, { mode := NavigationMode.Normal, command_buffer := "" })
  | Key.backspace =>
    let buf := String.mk h.command_buffer.toList.dropLast
    if buf = "" then
      (NavigationAction.None, { mode := NavigationMode.Normal, command_buffer := buf })
    else
      (NavigationAction.None, { h with command_buffer := buf })
  | Key.character s =>
    (NavigationAction.None, { h with command_buffer := h.command_buffer ++ s })
  | _ => (NavigationAction.None, h)

/-- Function `KeyHandler::handle_key` from src/input.rs. -/
def handle_key (h : KeyHandler) (k : Key) : NavigationAction × KeyHandler :=
  match h.mode with
  | NavigationMode.Normal => handle_normal_mode h k
  | NavigationMode.Command => handle_command_mode h k

/-! ### src/ui.rs — viewer state, scheduler, cache, controller -/

/-- The fields of `ViewerConfig` (src/ui.rs) that the modelled core reads.
The window-size/render-height fields only feed the pixel dimensions of render
requests and the floating-point resize computation, which the claims do not
measure. -/
structure ViewerConfig where
  cache_size : Nat
  half_page_scroll_amount : Nat
deriving DecidableEq, Repr

/-- An `iced` image handle as created by `image::Handle::from_rgba` in
`handle_tick`: the decoded pixel buffer plus its dimensions. -/
structure ImageHandle where
  width : Nat
  height : Nat
  pixels : List Nat
deriving DecidableEq, Repr

/-- The `RenderResult` struct from src/ui.rs. -/
structure RenderResult where
  page_index : Nat
  pixels : List Nat
  width : Nat
  height : Nat
deriving DecidableEq, Repr

/-- The state of `ViewerApp` (src/ui.rs) read and written by the modelled
operations.  `page_cache` is the `HashMap<usize, image::Handle>` modelled as
an association list whose list order stands for the map's (unspecified)
iteration order; `window_id` is `Option` of an opaque id. -/
structure ViewerApp where
  current_image : Option ImageHandle
  current_page_index : Nat
  total_pages : Nat
  window_id : Option Nat
  page_cache : List (Nat × ImageHandle)
deriving DecidableEq, Repr

/-- The key set of the cache (`page_cache.keys()`). -/
def cacheKeys (cache : List (Nat × ImageHandle)) : List Nat :=
  cache.map Prod.fst

/-- Lookup `HashMap::get` on the cache. -/
def cacheGet (cache : List (Nat × ImageHandle)) (idx : Nat) : Option ImageHandle :=
  match cache.find? (fun e => e.1 = idx) with
  | some e => some e.2
  | none => none

/-- Insertion `HashMap::insert` on the cache: replaces the value at an existing key,
otherwise adds a fresh entry (its position in the list — the map's iteration
order — is unspecified in the source; we place it at the head). -/
def cacheInsert (idx : Nat) (h : ImageHandle) (cache : List (Nat × ImageHandle)) :
    List (Nat × ImageHandle) :=
  if idx ∈ cacheKeys cache then
    cache.map (fun e => if e.1 = idx then (idx, h) else e)
  else
    (idx, h) :: cache

/-- The eviction test in `handle_tick` (src/ui.rs:229-231): a cached key is
evictable when it lies outside the window of radius 2 around the current
page.  `saturating_sub(2)` is `Nat` subtraction; `current + 2` is a raw
`usize` addition. -/
def evictable (cur key : Nat) : Bool :=
  decide (key < cur - 2) || decide (key > usizeAdd cur 2)

/-- The `for key in keys` loop of `handle_tick` (src/ui.rs:228-237): walk the
keys in iteration order, marking evictable keys for removal, and stop as soon
as removing the marked keys would bring the size within `cache_size`. -/
def collectEvict (cur cache_size len : Nat) : List Nat → List Nat → List Nat
  | [], to_remove => to_remove
  | key :: rest, to_remove =>
    if evictable cur key then
      let to_remove' := to_remove ++ [key]
      if len - to_remove'.length ≤ cache_size then to_remove'
      else collectEvict cur cache_size len rest to_remove'
    else collectEvict cur cache_size len rest to_remove

/-- The cache-optimisation pass of `handle_tick` (src/ui.rs:225-241): when the
cache exceeds `cache_size`, remove the keys collected by the loop (the Rust
binds the collected list as `to_remove` once; it is written inline here). -/
def evictPass (cur cache_size : Nat) (cache : List (Nat × ImageHandle)) :
    List (Nat × ImageHandle) :=
  if cache.length > cache_size then
    cache.filter (fun e =>
      decide (e.1 ∉ collectEvict cur cache_size cache.length (cacheKeys cache) []))
  else cache

/-- Processing of one drained `RenderResult` inside `handle_tick`'s
`while let` loop (src/ui.rs:219-254): build the handle, insert it into the
cache, run the eviction pass, and — only when the result is for the current
page — adopt it as the displayed image and (when a window id is known) emit a
resize request.  The request's concrete `f32` size is derived from the
result's dimensions and the configured target height; the claims only observe
whether a request is emitted, so the model carries the result's dimensions as
the request payload. -/
def handle_tick_one (cfg : ViewerConfig) (st : ViewerApp) (r : RenderResult) :
    ViewerApp × Option (Nat × Nat) :=
  let handle : ImageHandle := ⟨r.width, r.height, r.pixels⟩
  let cache1 := cacheInsert r.page_index handle st.page_cache
  let cache2 := evictPass st.current_page_index cfg.cache_size cache1
  if r.page_index = st.current_page_index then
    let st' := { st with page_cache := cache2, current_image := some handle }
    match st.window_id with
    | some _ => (st', some (r.width, r.height))
    | none => (st', none)
  else
    ({ st with page_cache := cache2 }, none)

/-- Function `ViewerApp::render_current_and_adjacent_pages` (src/ui.rs:318-354), its
dispatch side: the page indices sent to the render worker, in dispatch order.
The `next` guard compares against the raw subtraction
`self.total_pages as usize - 1` (which wraps when `total_pages = 0`); inside
the guarded branches `current - 1` and `current + 1` cannot under/overflow, so
plain `Nat` arithmetic agrees with `usize` arithmetic there. -/
def scheduleRequests (cur total : Nat) (cache : List (Nat × ImageHandle)) : List Nat :=
  (if cur ∈ cacheKeys cache then [] else [cur]) ++
  (if 0 < cur ∧ (cur - 1) ∉ cacheKeys cache then [cur - 1] else []) ++
  (if cur < usizeSub total 1 ∧ (cur + 1) ∉ cacheKeys cache then [cur + 1] else [])

/-- Function `ViewerApp::render_current_and_adjacent_pages` (src/ui.rs:318-354) in
full: additionally adopts the cached image for the current page when present.
Returns the updated state and the dispatched request indices. -/
def render_current_and_adjacent_pages (st : ViewerApp) : ViewerApp × List Nat :=
  let st' := match cacheGet st.page_cache st.current_page_index with
    | some cached => { st with current_image := some cached }
    | none => st
  (st', scheduleRequests st.current_page_index st.total_pages st.page_cache)

/-- The prefetch set: the pages `render_current_and_adjacent_pages` considers
for rendering (each is dispatched exactly when absent from the cache) —
current page, previous page when one exists, next page when the source's
guard `current < total_pages - 1` (raw `usize` subtraction) holds. -/
def prefetchSet (cur total : Nat) : Finset Nat :=
  {cur} ∪ (if 0 < cur then {cur - 1} else ∅) ∪
    (if cur < usizeSub total 1 then {cur + 1} else ∅)

/-- The navigation-intent dispatch of `ViewerApp::handle_key_press`
(src/ui.rs:266-313), applied to an already-decoded `NavigationAction`.
Returns the updated state and the render requests dispatched by the scheduler
pass (empty when no scheduler pass runs).  `Quit` calls `process::exit(0)`;
since no further state is observed, it is modelled as leaving the state
unchanged.  Raw `usize` arithmetic (`total_pages as usize - 1`, `+ 1`,
`+ half_page_scroll_amount`) is modelled with wrapping semantics;
`saturating_sub` with `Nat` subtraction. -/
def apply_action (cfg : ViewerConfig) (st : ViewerApp) (a : NavigationAction) :
    ViewerApp × List Nat :=
  match a with
  | NavigationAction.NextPage =>
    if st.current_page_index < usizeSub st.total_pages 1 then
      render_current_and_adjacent_pages
        { st with current_page_index := usizeAdd st.current_page_index 1 }
    else (st, [])
  | NavigationAction.PrevPage =>
    if 0 < st.current_page_index then
      render_current_and_adjacent_pages
        { st with current_page_index := st.current_page_index - 1 }
    else (st, [])
  | NavigationAction.FirstPage =>
    render_current_and_adjacent_pages { st with current_page_index := 0 }
  | NavigationAction.LastPage =>
    render_current_and_adjacent_pages
      { st with current_page_index := st.total_pages - 1 }
  | NavigationAction.HalfPageDown =>
    let new_index :=
      min (usizeAdd st.current_page_index cfg.half_page_scroll_amount)
        (usizeSub st.total_pages 1)
    render_current_and_adjacent_pages { st with current_page_index := new_index }
  | NavigationAction.HalfPageUp =>
    let new_index := st.current_page_index - cfg.half_page_scroll_amount
    render_current_and_adjacent_pages { st with current_page_index := new_index }
  | NavigationAction.JumpToPage page_num =>
    let target := page_num - 1
    if target < st.total_pages then
      render_current_and_adjacent_pages { st with current_page_index := target }
    else (st, [])
  | NavigationAction.Quit => (st, [])
  | NavigationAction.EnterCommandMode => (st, [])
  | NavigationAction.None => (st, [])

/-! ### Helper lemmas -/

theorem render_pages_fst_current (st : ViewerApp) :
    (render_current_and_adjacent_pages st).1.current_page_index = st.current_page_index := by
  unfold render_current_and_adjacent_pages
  cases cacheGet st.page_cache st.current_page_index <;> rfl

theorem render_pages_fst_total (st : ViewerApp) :
    (render_current_and_adjacent_pages st).1.total_pages = st.total_pages := by
  unfold render_current_and_adjacent_pages
  cases cacheGet st.page_cache st.current_page_index <;> rfl

theorem usizeSub_one_eq (t : Nat) (h1 : 1 ≤ t) (h2 : t < USIZE) :
    usizeSub t 1 = t - 1 := by
  unfold usizeSub
  have hpos : 0 < USIZE := by unfold USIZE; positivity
  have : USIZE + t - 1 = (t - 1) + USIZE := by omega
  rw [this, Nat.add_mod_right, Nat.mod_eq_of_lt (by omega)]

theorem usizeAdd_eq (a b : Nat) (h : a + b < USIZE) : usizeAdd a b = a + b := by
  unfold usizeAdd
  exact Nat.mod_eq_of_lt h

/-! ### Claims -/

/-- Claim C1 (code bug).  The claim asserts that with `total_pages == 0` no
navigation intent panics, no underflow occurs in the clamping expressions,
and no navigation or scheduling takes place.  The code instead evaluates
`self.total_pages as usize - 1` (src/ui.rs:268) whose subtraction underflows
when `total_pages = 0` — a panic in debug builds; in release builds it wraps
to `2^64 - 1`, so a `NextPage` intent on an empty document *does* navigate
(`current_page_index` becomes 1) and the scheduler *does* dispatch render
requests (for pages 1, 0 and 2), contradicting both the no-navigation and the
scheduler-issues-nothing parts of the claim. -/
theorem claim_C1_empty_doc_underflow :
    subUnderflows 0 1 ∧
    (apply_action ⟨5, 5⟩ ⟨none, 0, 0, none, []⟩ NavigationAction.NextPage).1.current_page_index
        = 1 ∧
    (apply_action ⟨5, 5⟩ ⟨none, 0, 0, none, []⟩ NavigationAction.NextPage).2 = [1, 0, 2] := by
  refine ⟨by decide, by decide, by decide⟩

/-- Claim C2.  `JumpToPage(n)` with `n` 1-based: the target index is `n - 1`;
if the target is `≥ total_pages` the whole state is left unchanged (no
wraparound), otherwise `current_page_index` becomes `n - 1`. -/
theorem claim_C2_jump_semantics (cfg : ViewerConfig) (st : ViewerApp) (n : Nat)
    (hn : 1 ≤ n) :
    (n - 1 < st.total_pages →
      (apply_action cfg st (NavigationAction.JumpToPage n)).1.current_page_index = n - 1) ∧
    (st.total_pages ≤ n - 1 →
      (apply_action cfg st (NavigationAction.JumpToPage n)).1 = st ∧
      (apply_action cfg st (NavigationAction.JumpToPage n)).1.current_page_index
        = st.current_page_index) := by
  constructor
  · intro hin
    unfold apply_action
    simp only [if_pos hin]
    rw [render_pages_fst_current]
  · intro hout
    have hcond : ¬ n - 1 < st.total_pages := by omega
    have heq : apply_action cfg st (NavigationAction.JumpToPage n) = (st, []) := by
      unfold apply_action
      simp only [if_neg hcond]
    rw [heq]
    exact ⟨rfl, rfl⟩

theorem claim_C2_witness :
    1 ≤ 3 ∧
    ((3 - 1 < (⟨none, 0, 10, none, []⟩ : ViewerApp).total_pages →
      (apply_action ⟨5, 5⟩ ⟨none, 0, 10, none, []⟩
          (NavigationAction.JumpToPage 3)).1.current_page_index = 3 - 1)) := by
  refine ⟨by decide, ?_⟩
  exact (claim_C2_jump_semantics ⟨5, 5⟩ ⟨none, 0, 10, none, []⟩ 3 (by decide)).1

/-- Claim C8.  From Normal mode with an empty buffer, the first `g` yields
`None` with a pending `"g"` buffer, and the second `g` yields `FirstPage`
with the buffer empty afterward. -/
theorem claim_C8_gg_first_page :
    handle_key KeyHandler.new (Key.character "g")
      = (NavigationAction.None, ⟨NavigationMode.Normal, "g"⟩) ∧
    handle_key ⟨NavigationMode.Normal, "g"⟩ (Key.character "g")
      = (NavigationAction.FirstPage, ⟨NavigationMode.Normal, ""⟩) := by
  refine ⟨by decide, by decide⟩

/-- Claim C9.  From Normal mode with an empty buffer, keys `4`, `2` each yield
`None` while accumulating the buffer, and Enter then yields `JumpToPage 42`
with the buffer empty afterward. -/
theorem claim_C9_digits_enter_jump :
    handle_key KeyHandler.new (Key.character "4")
      = (NavigationAction.None, ⟨NavigationMode.Normal, "4"⟩) ∧
    handle_key ⟨NavigationMode.Normal, "4"⟩ (Key.character "2")
      = (NavigationAction.None, ⟨NavigationMode.Normal, "42"⟩) ∧
    handle_key ⟨NavigationMode.Normal, "42"⟩ Key.enter
      = (NavigationAction.JumpToPage 42, ⟨NavigationMode.Normal, ""⟩) := by
  refine ⟨by decide, by decide, by decide⟩

/-- Claim C10.  In Normal mode, Enter with a non-empty buffer that does not
parse as a non-negative integer yields `None`, clears the buffer, and stays
in Normal mode. -/
theorem claim_C10_enter_unparseable (kh : KeyHandler)
    (hmode : kh.mode = NavigationMode.Normal)
    (hbuf : kh.command_buffer ≠ "")
    (hparse : parseUsize kh.command_buffer.toList = none) :
    handle_key kh Key.enter
      = (NavigationAction.None, ⟨NavigationMode.Normal, ""⟩) := by
  obtain ⟨m, buf⟩ := kh
  simp only at hmode hbuf hparse
  subst hmode
  simp only [String.toList] at hparse
  unfold handle_key handle_normal_mode
  simp [hbuf, hparse]

theorem claim_C10_witness :
    handle_key ⟨NavigationMode.Normal, "g"⟩ Key.enter
      = (NavigationAction.None, ⟨NavigationMode.Normal, ""⟩) :=
  claim_C10_enter_unparseable ⟨NavigationMode.Normal, "g"⟩ rfl (by decide) (by decide)

/-- Claim C7.  In Command mode, Enter parses the trimmed buffer — `"q"` or
`"quit"` yield `Quit`, a string the `usize` parser accepts yields
`JumpToPage` of its value, anything else yields `None` — and in every case
the handler returns to Normal mode with the buffer cleared. -/
theorem claim_C7_command_enter (kh : KeyHandler)
    (hmode : kh.mode = NavigationMode.Command) :
    (handle_key kh Key.enter).2.mode = NavigationMode.Normal ∧
    (handle_key kh Key.enter).2.command_buffer = "" ∧
    ((rustTrim kh.command_buffer.toList = "q".toList ∨
      rustTrim kh.command_buffer.toList = "quit".toList) →
        (handle_key kh Key.enter).1 = NavigationAction.Quit) ∧
    (¬(rustTrim kh.command_buffer.toList = "q".toList ∨
       rustTrim kh.command_buffer.toList = "quit".toList) →
      (∀ n, parseUsize (rustTrim kh.command_buffer.toList) = some n →
        (handle_key kh Key.enter).1 = NavigationAction.JumpToPage n) ∧
      (parseUsize (rustTrim kh.command_buffer.toList) = none →
        (handle_key kh Key.enter).1 = NavigationAction.None)) := by
  obtain ⟨m, buf⟩ := kh
  simp only at hmode ⊢
  subst hmode
  have hk : handle_key ⟨NavigationMode.Command, buf⟩ Key.enter
      = (parse_command ⟨NavigationMode.Command, buf⟩,
          ⟨NavigationMode.Normal, ""⟩) := rfl
  rw [hk]
  have hpceq : parse_command ⟨NavigationMode.Command, buf⟩
      = (if rustTrim buf.toList = "q".toList ∨ rustTrim buf.toList = "quit".toList then
          NavigationAction.Quit
        else
          match parseUsize (rustTrim buf.toList) with
          | some page_num => NavigationAction.JumpToPage page_num
          | none => NavigationAction.None) := rfl
  refine ⟨rfl, rfl, ?_, ?_⟩
  · intro hq
    have hpc : parse_command ⟨NavigationMode.Command, buf⟩ = NavigationAction.Quit := by
      rw [hpceq, if_pos hq]
    exact hpc
  · intro hnq
    constructor
    · intro n hn
      have hpc : parse_command ⟨NavigationMode.Command, buf⟩
          = NavigationAction.JumpToPage n := by
        rw [hpceq, if_neg hnq, hn]
      exact hpc
    · intro hn
      have hpc : parse_command ⟨NavigationMode.Command, buf⟩
          = NavigationAction.None := by
        rw [hpceq, if_neg hnq, hn]
      exact hpc

theorem claim_C7_witness :
    KeyHandler.mode ⟨NavigationMode.Command, "q"⟩ = NavigationMode.Command ∧
    (handle_key ⟨NavigationMode.Command, "q"⟩ Key.enter).2.mode = NavigationMode.Normal ∧
    (handle_key ⟨NavigationMode.Command, "q"⟩ Key.enter).2.command_buffer = "" ∧
    (handle_key ⟨NavigationMode.Command, "q"⟩ Key.enter).1 = NavigationAction.Quit := by
  have h := claim_C7_command_enter ⟨NavigationMode.Command, "q"⟩ rfl
  exact ⟨rfl, h.1, h.2.1, h.2.2.1 (by decide)⟩

theorem apply_action_total (cfg : ViewerConfig) (st : ViewerApp) (a : NavigationAction) :
    (apply_action cfg st a).1.total_pages = st.total_pages := by
  cases a <;> simp only [apply_action] <;> (try split) <;>
    simp [render_pages_fst_total]

/-- Claim C3.  If `total_pages ≥ 1` and `current_page_index < total_pages`
before a key press, then `current_page_index < total_pages` afterward: every
navigation intent is clamped to `[0, total_pages - 1]`.  (`total_pages` is a
`u16` cast to `usize`, hence `< USIZE`.) -/
theorem claim_C3_index_invariant (cfg : ViewerConfig) (st : ViewerApp)
    (a : NavigationAction)
    (h1 : 1 ≤ st.total_pages) (h2 : st.total_pages < USIZE)
    (h3 : st.current_page_index < st.total_pages) :
    (apply_action cfg st a).1.current_page_index < (apply_action cfg st a).1.total_pages := by
  rw [apply_action_total cfg st a]
  have hsub : usizeSub st.total_pages 1 = st.total_pages - 1 :=
    usizeSub_one_eq st.total_pages h1 h2
  cases a with
  | NextPage =>
    by_cases hlt : st.current_page_index < usizeSub st.total_pages 1
    · have e1 : apply_action cfg st NavigationAction.NextPage
          = render_current_and_adjacent_pages
              { st with current_page_index := usizeAdd st.current_page_index 1 } := by
        unfold apply_action
        rw [if_pos hlt]
      rw [hsub] at hlt
      rw [e1, render_pages_fst_current]
      show usizeAdd st.current_page_index 1 < st.total_pages
      rw [usizeAdd_eq _ _ (by omega)]
      omega
    · have e1 : apply_action cfg st NavigationAction.NextPage = (st, []) := by
        unfold apply_action
        rw [if_neg hlt]
      rw [e1]
      exact h3
  | PrevPage =>
    by_cases hp : 0 < st.current_page_index
    · have e1 : apply_action cfg st NavigationAction.PrevPage
          = render_current_and_adjacent_pages
              { st with current_page_index := st.current_page_index - 1 } := by
        unfold apply_action
        rw [if_pos hp]
      rw [e1, render_pages_fst_current]
      show st.current_page_index - 1 < st.total_pages
      omega
    · have e1 : apply_action cfg st NavigationAction.PrevPage = (st, []) := by
        unfold apply_action
        rw [if_neg hp]
      rw [e1]
      exact h3
  | FirstPage =>
    have e1 : apply_action cfg st NavigationAction.FirstPage
        = render_current_and_adjacent_pages { st with current_page_index := 0 } := rfl
    rw [e1, render_pages_fst_current]
    show 0 < st.total_pages
    omega
  | LastPage =>
    have e1 : apply_action cfg st NavigationAction.LastPage
        = render_current_and_adjacent_pages
            { st with current_page_index := st.total_pages - 1 } := rfl
    rw [e1, render_pages_fst_current]
    show st.total_pages - 1 < st.total_pages
    omega
  | HalfPageDown =>
    have e1 : apply_action cfg st NavigationAction.HalfPageDown
        = render_current_and_adjacent_pages { st with current_page_index := min (usizeAdd st.current_page_index cfg.half_page_scroll_amount) (usizeSub st.total_pages 1) } := rfl
    rw [e1, render_pages_fst_current]
    show min (usizeAdd st.current_page_index cfg.half_page_scroll_amount)
        (usizeSub st.total_pages 1) < st.total_pages
    have hmin := Nat.min_le_right
      (usizeAdd st.current_page_index cfg.half_page_scroll_amount)
      (usizeSub st.total_pages 1)
    omega
  | HalfPageUp =>
    have e1 : apply_action cfg st NavigationAction.HalfPageUp
        = render_current_and_adjacent_pages { st with current_page_index := st.current_page_index - cfg.half_page_scroll_amount } := rfl
    rw [e1, render_pages_fst_current]
    show st.current_page_index - cfg.half_page_scroll_amount < st.total_pages
    omega
  | JumpToPage n =>
    by_cases ht : n - 1 < st.total_pages
    · have e1 : apply_action cfg st (NavigationAction.JumpToPage n)
          = render_current_and_adjacent_pages
              { st with current_page_index := n - 1 } := by
        unfold apply_action
        simp only [if_pos ht]
      rw [e1, render_pages_fst_current]
      exact ht
    · have e1 : apply_action cfg st (NavigationAction.JumpToPage n) = (st, []) := by
        unfold apply_action
        simp only [if_neg ht]
      rw [e1]
      exact h3
  | Quit => exact h3
  | EnterCommandMode => exact h3
  | None => exact h3

theorem claim_C3_witness :
    1 ≤ (10 : Nat) ∧ (10 : Nat) < USIZE ∧ (3 : Nat) < 10 ∧
    (apply_action ⟨5, 5⟩ ⟨none, 3, 10, none, []⟩
        NavigationAction.NextPage).1.current_page_index
      < (apply_action ⟨5, 5⟩ ⟨none, 3, 10, none, []⟩
        NavigationAction.NextPage).1.total_pages := by
  refine ⟨by decide, by decide, by decide, ?_⟩
  exact claim_C3_index_invariant ⟨5, 5⟩ ⟨none, 3, 10, none, []⟩
    NavigationAction.NextPage (by decide) (by decide) (by decide)

theorem mem_cacheInsert (idx : Nat) (h : ImageHandle) (cache : List (Nat × ImageHandle)) :
    idx ∈ cacheKeys (cacheInsert idx h cache) := by
  unfold cacheInsert
  by_cases hm : idx ∈ cacheKeys cache
  · rw [if_pos hm]
    unfold cacheKeys at hm ⊢
    rcases List.mem_map.mp hm with ⟨e, he, hfst⟩
    refine List.mem_map.mpr ⟨(if e.1 = idx then (idx, h) else e), List.mem_map_of_mem _ he, ?_⟩
    rw [if_pos hfst]
  · rw [if_neg hm]
    exact List.mem_map.mpr ⟨(idx, h), List.mem_cons_self _ _, rfl⟩

/-- Claim C6, counterexample.  The claim asserts that a stale render result (for
a page other than the current one) always leaves its entry in the cache.  At
`current_page_index = 0`, `cache_size = 1`, cache `{0}`, a result for page 9
is inserted and then immediately removed by the eviction pass (9 lies outside
the radius-2 window around page 0 and the cache is over budget), so the cache
does not gain the entry. -/
theorem claim_C6_counterexample :
    (⟨9, [], 1, 1⟩ : RenderResult).page_index ≠
        (⟨none, 0, 10, some 1, [(0, ⟨1, 1, []⟩)]⟩ : ViewerApp).current_page_index ∧
    (⟨9, [], 1, 1⟩ : RenderResult).page_index ∉
        cacheKeys (handle_tick_one ⟨1, 5⟩ ⟨none, 0, 10, some 1, [(0, ⟨1, 1, []⟩)]⟩
          ⟨9, [], 1, 1⟩).1.page_cache := by
  refine ⟨by decide, by decide⟩

/-- Claim C6 as amended.  A stale render result is *inserted* into the cache
(though the immediately following eviction pass may remove it again), the
displayed image is unchanged, and no resize request is issued; consequently
only a result for the current page can update the displayed image or trigger
a resize. -/
theorem claim_C6_amended (cfg : ViewerConfig) (st : ViewerApp) (r : RenderResult)
    (h : r.page_index ≠ st.current_page_index) :
    r.page_index ∈ cacheKeys
      (cacheInsert r.page_index ⟨r.width, r.height, r.pixels⟩ st.page_cache) ∧
    (handle_tick_one cfg st r).1.current_image = st.current_image ∧
    (handle_tick_one cfg st r).2 = none := by
  have e : handle_tick_one cfg st r
      = ({ st with page_cache := evictPass st.current_page_index cfg.cache_size (cacheInsert r.page_index ⟨r.width, r.height, r.pixels⟩ st.page_cache) }, none) := by
    unfold handle_tick_one
    simp only [if_neg h]
  exact ⟨mem_cacheInsert _ _ _, by rw [e], by rw [e]⟩

theorem claim_C6_witness :
    (⟨7, [], 1, 1⟩ : RenderResult).page_index ≠
        (⟨none, 0, 10, some 1, []⟩ : ViewerApp).current_page_index ∧
    (handle_tick_one ⟨5, 5⟩ ⟨none, 0, 10, some 1, []⟩ ⟨7, [], 1, 1⟩).1.current_image
        = (⟨none, 0, 10, some 1, []⟩ : ViewerApp).current_image ∧
    (handle_tick_one ⟨5, 5⟩ ⟨none, 0, 10, some 1, []⟩ ⟨7, [], 1, 1⟩).2 = none := by
  have h := claim_C6_amended ⟨5, 5⟩ ⟨none, 0, 10, some 1, []⟩ ⟨7, [], 1, 1⟩ (by decide)
  exact ⟨by decide, h.2.1, h.2.2⟩

theorem mem_ite_singleton (c : Prop) [Decidable c] (x y : Nat) :
    (x ∈ (if c then ({y} : Finset Nat) else ∅)) ↔ c ∧ x = y := by
  split
  · rename_i hc
    simp [hc]
  · rename_i hc
    simp [hc]

theorem mem_scheduleRequests (cur total x : Nat) (cache : List (Nat × ImageHandle)) :
    x ∈ scheduleRequests cur total cache ↔
      ((x = cur ∨ (0 < cur ∧ x = cur - 1) ∨ (cur < usizeSub total 1 ∧ x = cur + 1)) ∧
        x ∉ cacheKeys cache) := by
  unfold scheduleRequests
  constructor
  · intro hx
    rcases List.mem_append.mp hx with hx' | hx'
    · rcases List.mem_append.mp hx' with hcur | hprev
      · by_cases hc : cur ∈ cacheKeys cache
        · rw [if_pos hc] at hcur
          exact absurd hcur (List.not_mem_nil x)
        · rw [if_neg hc] at hcur
          rcases List.mem_singleton.mp hcur with rfl
          exact ⟨Or.inl rfl, hc⟩
      · by_cases hp : 0 < cur ∧ (cur - 1) ∉ cacheKeys cache
        · rw [if_pos hp] at hprev
          rcases List.mem_singleton.mp hprev with rfl
          exact ⟨Or.inr (Or.inl ⟨hp.1, rfl⟩), hp.2⟩
        · rw [if_neg hp] at hprev
          exact absurd hprev (List.not_mem_nil x)
    · by_cases hn : cur < usizeSub total 1 ∧ (cur + 1) ∉ cacheKeys cache
      · rw [if_pos hn] at hx'
        rcases List.mem_singleton.mp hx' with rfl
        exact ⟨Or.inr (Or.inr ⟨hn.1, rfl⟩), hn.2⟩
      · rw [if_neg hn] at hx'
        exact absurd hx' (List.not_mem_nil x)
  · rintro ⟨hmem, hnk⟩
    rcases hmem with rfl | ⟨h0, rfl⟩ | ⟨hlt, rfl⟩
    · refine List.mem_append.mpr (Or.inl (List.mem_append.mpr (Or.inl ?_)))
      rw [if_neg hnk]
      exact List.mem_singleton.mpr rfl
    · refine List.mem_append.mpr (Or.inl (List.mem_append.mpr (Or.inr ?_)))
      rw [if_pos ⟨h0, hnk⟩]
      exact List.mem_singleton.mpr rfl
    · refine List.mem_append.mpr (Or.inr ?_)
      rw [if_pos ⟨hlt, hnk⟩]
      exact List.mem_singleton.mpr rfl

theorem mem_prefetchSet (cur total x : Nat) :
    x ∈ prefetchSet cur total ↔
      (x = cur ∨ (0 < cur ∧ x = cur - 1) ∨ (cur < usizeSub total 1 ∧ x = cur + 1)) := by
  unfold prefetchSet
  simp only [Finset.mem_union, Finset.mem_singleton, mem_ite_singleton]
  exact or_assoc

/-- Claim C4.  Under a loaded document (`current < total`, `total` a `u16`
value), the set of pages the scheduler considers is exactly
`{current-1, current, current+1}` whenever `0 < current < total - 1`; at
`current = 0` it contains at most `current` and `current + 1` (no previous
page), and at `current = total - 1` it excludes `current + 1`; moreover the
dispatched requests are exactly the considered pages absent from the
cache. -/
theorem claim_C4_prefetch_set (total cur : Nat) (cache : List (Nat × ImageHandle))
    (h1 : cur < total) (h2 : total < USIZE) :
    ((0 < cur ∧ cur + 1 < total →
        prefetchSet cur total = {cur - 1, cur, cur + 1}) ∧
      (cur = 0 → prefetchSet cur total ⊆ {cur, cur + 1}) ∧
      (cur = total - 1 →
        cur + 1 ∉ prefetchSet cur total ∧ prefetchSet cur total ⊆ {cur - 1, cur})) ∧
    (scheduleRequests cur total cache).toFinset
      = prefetchSet cur total \ (cacheKeys cache).toFinset := by
  have hsub : usizeSub total 1 = total - 1 := usizeSub_one_eq total (by omega) h2
  constructor
  · refine ⟨?_, ?_, ?_⟩
    · rintro ⟨hc0, hc1⟩
      ext x
      rw [mem_prefetchSet, hsub]
      simp only [Finset.mem_insert, Finset.mem_singleton]
      constructor
      · rintro (rfl | ⟨-, rfl⟩ | ⟨-, rfl⟩)
        · exact Or.inr (Or.inl rfl)
        · exact Or.inl rfl
        · exact Or.inr (Or.inr rfl)
      · rintro (rfl | rfl | rfl)
        · exact Or.inr (Or.inl ⟨hc0, rfl⟩)
        · exact Or.inl rfl
        · exact Or.inr (Or.inr ⟨by omega, rfl⟩)
    · intro hcur
      intro x hx
      rw [mem_prefetchSet] at hx
      simp only [Finset.mem_insert, Finset.mem_singleton]
      rcases hx with rfl | ⟨h0, -⟩ | ⟨-, rfl⟩
      · exact Or.inl rfl
      · omega
      · exact Or.inr rfl
    · intro hcur
      constructor
      · intro hx
        rw [mem_prefetchSet, hsub] at hx
        rcases hx with hx | ⟨-, hx⟩ | ⟨hlt, -⟩ <;> omega
      · intro x hx
        rw [mem_prefetchSet] at hx
        simp only [Finset.mem_insert, Finset.mem_singleton]
        rcases hx with rfl | ⟨-, rfl⟩ | ⟨hlt, rfl⟩
        · exact Or.inr rfl
        · exact Or.inl rfl
        · rw [hsub] at hlt
          omega
  · ext x
    rw [List.mem_toFinset, mem_scheduleRequests, Finset.mem_sdiff, mem_prefetchSet,
      List.mem_toFinset]

theorem claim_C4_witness :
    (1 : Nat) < 4 ∧ (4 : Nat) < USIZE ∧
    prefetchSet 1 4 = {0, 1, 2} ∧
    (scheduleRequests 1 4 [(2, ⟨1, 1, []⟩)]).toFinset
      = prefetchSet 1 4 \ (cacheKeys [(2, ⟨1, 1, []⟩)]).toFinset := by
  have h := claim_C4_prefetch_set 4 1 [(2, ⟨1, 1, []⟩)] (by decide) (by decide)
  refine ⟨by decide, by decide, ?_, h.2⟩
  have h3 := h.1.1 ⟨by decide, by decide⟩
  simpa using h3

theorem collectEvict_cons (cur C len key : Nat) (rest acc : List Nat) :
    collectEvict cur C len (key :: rest) acc =
      if evictable cur key then
        (if len - (acc ++ [key]).length ≤ C then acc ++ [key]
          else collectEvict cur C len rest (acc ++ [key]))
      else collectEvict cur C len rest acc := rfl

theorem collectEvict_extra (cur C len : Nat) (ks : List Nat) :
    ∀ acc : List Nat, ∃ ext, collectEvict cur C len ks acc = acc ++ ext ∧
      ext.Sublist ks := by
  induction ks with
  | nil =>
    intro acc
    exact ⟨[], by simp [collectEvict], List.nil_sublist []⟩
  | cons key rest ih =>
    intro acc
    rw [collectEvict_cons]
    by_cases he : evictable cur key = true
    · rw [if_pos he]
      by_cases hb : len - (acc ++ [key]).length ≤ C
      · rw [if_pos hb]
        exact ⟨[key], rfl, List.singleton_sublist.mpr (List.mem_cons_self key rest)⟩
      · rw [if_neg hb]
        obtain ⟨ext, heq, hsub⟩ := ih (acc ++ [key])
        refine ⟨key :: ext, ?_, List.Sublist.cons₂ key hsub⟩
        rw [heq, List.append_assoc, List.singleton_append]
    · rw [if_neg he]
      obtain ⟨ext, heq, hsub⟩ := ih acc
      exact ⟨ext, heq, List.Sublist.cons key hsub⟩

theorem collectEvict_complete (cur C len : Nat) (ks : List Nat) :
    ∀ acc : List Nat,
      len - (collectEvict cur C len ks acc).length ≤ C ∨
      (∀ k ∈ ks, evictable cur k = true → k ∈ collectEvict cur C len ks acc) := by
  induction ks with
  | nil =>
    intro acc
    right
    intro k hk
    exact absurd hk (List.not_mem_nil k)
  | cons key rest ih =>
    intro acc
    rw [collectEvict_cons]
    by_cases he : evictable cur key = true
    · rw [if_pos he]
      by_cases hb : len - (acc ++ [key]).length ≤ C
      · rw [if_pos hb]
        left
        exact hb
      · rw [if_neg hb]
        rcases ih (acc ++ [key]) with h | h
        · left
          exact h
        · right
          intro k hk hke
          rcases List.mem_cons.mp hk with hkk | hk'
          · obtain ⟨ext, heq2, -⟩ := collectEvict_extra cur C len rest (acc ++ [key])
            rw [hkk, heq2]
            refine List.mem_append.mpr (Or.inl (List.mem_append.mpr (Or.inr ?_)))
            exact List.mem_singleton.mpr rfl
          · exact h k hk' hke
    · rw [if_neg he]
      rcases ih acc with h | h
      · left
        exact h
      · right
        intro k hk hke
        rcases List.mem_cons.mp hk with hkk | hk'
        · rw [hkk] at hke
          exact absurd hke he
        · exact h k hk' hke

theorem length_filter_not_mem_sublist {α : Type} (f : α → Nat) (l : List α) :
    ∀ s : List Nat, s.Sublist (l.map f) →
      (l.filter (fun x => decide (f x ∉ s))).length ≤ l.length - s.length := by
  induction l with
  | nil =>
    intro s hs
    have hnil : s = [] := List.sublist_nil.mp hs
    subst hnil
    simp
  | cons a t ih =>
    intro s hs
    rcases List.sublist_cons_iff.mp hs with h | ⟨s', rfl, h⟩
    · have hlen : s.length ≤ t.length := by
        have := List.Sublist.length_le h
        rwa [List.length_map] at this
      have iht := ih s h
      rw [List.filter_cons]
      by_cases ha : f a ∈ s
      · rw [if_neg (by simp [ha])]
        simp only [List.length_cons]
        omega
      · rw [if_pos (decide_eq_true ha)]
        simp only [List.length_cons]
        omega
    · have hlen : s'.length ≤ t.length := by
        have := List.Sublist.length_le h
        rwa [List.length_map] at this
      have iht := ih s' h
      rw [List.filter_cons, if_neg (by simp)]
      have hmono : (t.filter (fun x => decide (f x ∉ f a :: s'))).length
          ≤ (t.filter (fun x => decide (f x ∉ s'))).length := by
        refine List.Sublist.length_le (List.monotone_filter_right t ?_)
        intro x hx
        simp only [decide_eq_true_eq] at hx ⊢
        intro hmem
        exact hx (List.mem_cons_of_mem _ hmem)
      simp only [List.length_cons]
      omega

theorem evictPass_spec (cur C : Nat) (cache : List (Nat × ImageHandle)) :
    (evictPass cur C cache).length ≤ C ∨
      (∀ e ∈ evictPass cur C cache, evictable cur e.1 = false) := by
  unfold evictPass
  by_cases hlen : cache.length > C
  · rw [if_pos hlen]
    obtain ⟨ext, hext, hsub⟩ :=
      collectEvict_extra cur C cache.length (cacheKeys cache) []
    rcases collectEvict_complete cur C cache.length (cacheKeys cache) [] with h | h
    · left
      have hfl := length_filter_not_mem_sublist Prod.fst cache
        (collectEvict cur C cache.length (cacheKeys cache) []) ?_
      · omega
      · rw [hext, List.nil_append]
        exact hsub
    · right
      intro e he
      rcases List.mem_filter.mp he with ⟨hmem, hdec⟩
      have hnot : e.1 ∉ collectEvict cur C cache.length (cacheKeys cache) [] :=
        of_decide_eq_true hdec
      by_cases hev : evictable cur e.1 = true
      · exact absurd (h e.1 (List.mem_map_of_mem Prod.fst hmem) hev) hnot
      · exact Bool.eq_false_iff.mpr hev
  · rw [if_neg hlen]
    left
    omega

theorem handle_tick_one_cache (cfg : ViewerConfig) (st : ViewerApp) (r : RenderResult) :
    (handle_tick_one cfg st r).1.page_cache
      = evictPass st.current_page_index cfg.cache_size
          (cacheInsert r.page_index ⟨r.width, r.height, r.pixels⟩ st.page_cache) := by
  cases hw : st.window_id <;>
    by_cases h : r.page_index = st.current_page_index <;>
      simp [handle_tick_one, hw, h]

/-- Claim C5.  After any render result is inserted into the page cache and the
eviction pass has run, either the cache size is within the configured maximum
`cache_size`, or every remaining entry's index is within window radius 2 of
`current_page_index`.  (`current_page_index + 2 < USIZE` records that the
`usize` addition in the window test does not wrap, which holds for every
reachable index since `total_pages` is a `u16`.) -/
theorem claim_C5_cache_bound (cfg : ViewerConfig) (st : ViewerApp) (r : RenderResult)
    (hcur : st.current_page_index + 2 < USIZE) :
    (handle_tick_one cfg st r).1.page_cache.length ≤ cfg.cache_size ∨
      (∀ e ∈ (handle_tick_one cfg st r).1.page_cache,
        st.current_page_index - 2 ≤ e.1 ∧ e.1 ≤ st.current_page_index + 2) := by
  rw [handle_tick_one_cache]
  rcases evictPass_spec st.current_page_index cfg.cache_size
      (cacheInsert r.page_index ⟨r.width, r.height, r.pixels⟩ st.page_cache) with h | h
  · left
    exact h
  · right
    intro e he
    have hf := h e he
    unfold evictable at hf
    rw [usizeAdd_eq _ _ hcur] at hf
    simp only [Bool.or_eq_false_iff, decide_eq_false_iff_not, Nat.not_lt] at hf
    omega

theorem claim_C5_witness :
    (0 : Nat) + 2 < USIZE ∧
    ((handle_tick_one ⟨1, 5⟩ ⟨none, 0, 10, none, [(0, ⟨1, 1, []⟩), (5, ⟨1, 1, []⟩)]⟩
        ⟨9, [], 1, 1⟩).1.page_cache.length ≤ 1 ∨
      (∀ e ∈ (handle_tick_one ⟨1, 5⟩ ⟨none, 0, 10, none, [(0, ⟨1, 1, []⟩), (5, ⟨1, 1, []⟩)]⟩
          ⟨9, [], 1, 1⟩).1.page_cache,
        (0 : Nat) - 2 ≤ e.1 ∧ e.1 ≤ 0 + 2)) := by
  refine ⟨by decide, ?_⟩
  exact claim_C5_cache_bound ⟨1, 5⟩ ⟨none, 0, 10, none, [(0, ⟨1, 1, []⟩), (5, ⟨1, 1, []⟩)]⟩
    ⟨9, [], 1, 1⟩ (by decide)

end Rufium
